import Mathlib

/-!
Shallow embedding of the transaction engine from `src/src/lib.rs`.

The engine consumes an ordered stream of records (deposit, withdrawal,
dispute, resolve, chargeback) and folds them into a mapping from client
identifiers to accounts.  `rust_decimal::Decimal` amounts are modelled as
exact rationals (`ℚ`); the `HashMap`/`HashSet` state is modelled as
association lists with insert-if-absent semantics matching
`HashMap::entry(..).or_insert(..)`.
-/

deriving instance DecidableEq for Except

namespace TxEngine

/-- `ClientId` from lib.rs (`u16`); identifiers are only compared, never
computed with, so `ℕ` is a faithful model. -/
abbrev ClientId := ℕ

/-- `TxId` from lib.rs (`u32`). -/
abbrev TxId := ℕ

/-- The `Error` enum from lib.rs.  The `Csv` variant is adapter-level
(raised while decoding, before a typed `Record` exists) and is outside the
fold modelled here. -/
inductive Error where
  | DepositNoAmount (tx : TxId)
  | WithdrawNoAmount (tx : TxId)
deriving DecidableEq, Repr

/-- The `Amounts` struct from lib.rs: available and held funds. -/
structure Amounts where
  available : ℚ
  held : ℚ
deriving DecidableEq, Repr

/-- `Amounts::deposit`: increases the available amount. -/
def Amounts.deposit (a : Amounts) (amount : ℚ) : Amounts :=
  { a with available := a.available + amount }

/-- `Amounts::withdraw`: decreases the available amount when sufficient
funds are available, otherwise a no-op; the Bool is the Rust return. -/
def Amounts.withdraw (a : Amounts) (amount : ℚ) : Amounts × Bool :=
  if amount ≤ a.available then
    ({ a with available := a.available - amount }, true)
  else
    (a, false)

/-- `Amounts::hold`: moves funds from available to held. -/
def Amounts.hold (a : Amounts) (amount : ℚ) : Amounts :=
  { available := a.available - amount, held := a.held + amount }

/-- `Amounts::release`: moves funds from held back to available. -/
def Amounts.release (a : Amounts) (amount : ℚ) : Amounts :=
  { available := a.available + amount, held := a.held - amount }

/-- `Amounts::chargeback`: removes held funds. -/
def Amounts.chargeback (a : Amounts) (amount : ℚ) : Amounts :=
  { a with held := a.held - amount }

/-- `Amounts::total`: the derived total, always computed as
available + held, never stored. -/
def Amounts.total (a : Amounts) : ℚ :=
  a.available + a.held

/-- The `Account` struct from lib.rs. -/
structure Account where
  client : ClientId
  amounts : Amounts
  locked : Bool
deriving DecidableEq, Repr

/-- `Account { client, ..Default::default() }` as used by
`accounts.entry(client).or_insert_with(..)` in `process`. -/
def Account.new (c : ClientId) : Account :=
  { client := c, amounts := { available := 0, held := 0 }, locked := false }

/-- The `Record` enum from lib.rs.  Every variant carries
`client`, `tx` and an optional `amount`. -/
inductive Record where
  | Withdraw (client : ClientId) (tx : TxId) (amount : Option ℚ)
  | Deposit (client : ClientId) (tx : TxId) (amount : Option ℚ)
  | Dispute (client : ClientId) (tx : TxId) (amount : Option ℚ)
  | Resolve (client : ClientId) (tx : TxId) (amount : Option ℚ)
  | Chargeback (client : ClientId) (tx : TxId) (amount : Option ℚ)
deriving DecidableEq, Repr

/-- First-match lookup in an association list; models `HashMap::get`. -/
def lookupKey {β : Type} : List (ℕ × β) → ℕ → Option β
  | [], _ => none
  | (k', v) :: rest, k => if k = k' then some v else lookupKey rest k

/-- The mutable state of `process`: the `accounts` map, the `txns`
amount-history map and the `disputed` set. -/
structure EngineState where
  accounts : List (ClientId × Account)
  txns : List (TxId × ℚ)
  disputed : List TxId
deriving DecidableEq, Repr

/-- The empty state `process` starts from. -/
def EngineState.init : EngineState :=
  { accounts := [], txns := [], disputed := [] }

/-- `accounts.entry(client).or_insert_with(|| Account { client, ..default })`:
inserts a fresh zero-balance account when the client is absent. -/
def ensureAccount (accs : List (ClientId × Account)) (c : ClientId) :
    List (ClientId × Account) :=
  match lookupKey accs c with
  | some _ => accs
  | none => (c, Account.new c) :: accs

/-- In-place mutation of the entry for client `c` (present after
`ensureAccount`); other entries are untouched. -/
def modifyAccount (accs : List (ClientId × Account)) (c : ClientId)
    (f : Account → Account) : List (ClientId × Account) :=
  accs.map fun p => if p.1 = c then (p.1, f p.2) else p

/-- The account observed for client `c`: the map entry when present,
otherwise the zero-balance default the engine would create. -/
def getAccount (accs : List (ClientId × Account)) (c : ClientId) : Account :=
  (lookupKey accs c).getD (Account.new c)

/-- `txns.entry(tx).or_insert(amount)`: records the amount only for a
TxId not yet in the history; an existing entry is never overwritten. -/
def txnsRecord (txns : List (TxId × ℚ)) (tx : TxId) (amount : ℚ) :
    List (TxId × ℚ) :=
  match lookupKey txns tx with
  | some _ => txns
  | none => (tx, amount) :: txns

/-- `disputed.insert(tx)` on a `HashSet`: no-op when already present. -/
def disputedInsert (d : List TxId) (tx : TxId) : List TxId :=
  if tx ∈ d then d else tx :: d

/-- `disputed.remove(&tx)` on a `HashSet`. -/
def disputedRemove (d : List TxId) (tx : TxId) : List TxId :=
  d.filter fun t => t ≠ tx

/-- One iteration of the `for record in rdr.deserialize()` loop of
`process` in lib.rs, acting on one already-decoded record. -/
def step (s : EngineState) (r : Record) : Except Error EngineState :=
  match r with
  | .Deposit client tx amount =>
    match amount with
    | none => Except.error (Error.DepositNoAmount tx)
    | some amount =>
      Except.ok
        { accounts := modifyAccount (ensureAccount s.accounts client) client
            (fun a => { a with amounts := a.amounts.deposit amount }),
          txns := txnsRecord s.txns tx amount,
          disputed := s.disputed }
  | .Withdraw client tx amount =>
    match amount with
    | none => Except.error (Error.WithdrawNoAmount tx)
    | some amount =>
      if ((getAccount (ensureAccount s.accounts client) client).amounts.withdraw amount).2 then
        Except.ok
          { accounts := modifyAccount (ensureAccount s.accounts client) client
              (fun a => { a with amounts := (a.amounts.withdraw amount).1 }),
            txns := txnsRecord s.txns tx amount,
            disputed := s.disputed }
      else
        Except.ok { s with accounts := ensureAccount s.accounts client }
  | .Dispute client tx _ =>
    match lookupKey s.txns tx with
    | some amount =>
      Except.ok
        { accounts := modifyAccount (ensureAccount s.accounts client) client
            (fun a => { a with amounts := a.amounts.hold amount }),
          txns := s.txns,
          disputed := disputedInsert s.disputed tx }
    | none => Except.ok { s with accounts := ensureAccount s.accounts client }
  | .Resolve client tx _ =>
    match lookupKey s.txns tx with
    | some amount =>
      Except.ok
        { accounts := modifyAccount (ensureAccount s.accounts client) client
            (fun a => { a with amounts := a.amounts.release amount }),
          txns := s.txns,
          disputed := disputedRemove s.disputed tx }
    | none => Except.ok { s with accounts := ensureAccount s.accounts client }
  | .Chargeback client tx _ =>
    match lookupKey s.txns tx with
    | some amount =>
      if tx ∈ s.disputed then
        Except.ok
          { accounts := modifyAccount (ensureAccount s.accounts client) client
              (fun a => { a with amounts := a.amounts.chargeback amount, locked := true }),
            txns := s.txns,
            disputed := disputedRemove s.disputed tx }
      else
        Except.ok { s with accounts := ensureAccount s.accounts client }
    | none => Except.ok { s with accounts := ensureAccount s.accounts client }

/-- The fold of `process` over the record stream: stops at the first
error, threading the state otherwise. -/
def processRecords : List Record → EngineState → Except Error EngineState
  | [], s => Except.ok s
  | r :: rs, s =>
    match step s r with
    | Except.error e => Except.error e
    | Except.ok s' => processRecords rs s'

/-- `process` from lib.rs, on an already-decoded record stream: folds
from the empty state and returns the final accounts mapping. -/
def process (records : List Record) : Except Error (List (ClientId × Account)) :=
  Except.map EngineState.accounts (processRecords records EngineState.init)

/-- The row `Account::serialize` emits: client, available, held, the
computed total, locked. -/
structure OutputRow where
  client : ClientId
  available : ℚ
  held : ℚ
  total : ℚ
  locked : Bool
deriving DecidableEq, Repr

/-- `Account::serialize` from lib.rs: total is added as a computed field. -/
def serializeAccount (a : Account) : OutputRow :=
  { client := a.client, available := a.amounts.available, held := a.amounts.held,
    total := a.amounts.total, locked := a.locked }

/-- The amount check `process` performs on primary records: the error it
raises when a deposit or withdrawal carries no amount, `none` otherwise. -/
def missingAmount : Record → Option Error
  | .Deposit _ tx none => some (Error.DepositNoAmount tx)
  | .Withdraw _ tx none => some (Error.WithdrawNoAmount tx)
  | _ => none

theorem lookupKey_nil {β : Type} (k : ℕ) :
    lookupKey ([] : List (ℕ × β)) k = none := rfl

theorem lookupKey_cons {β : Type} (k k' : ℕ) (v : β) (l : List (ℕ × β)) :
    lookupKey ((k', v) :: l) k = if k = k' then some v else lookupKey l k := rfl

theorem lookupKey_ensure (accs : List (ClientId × Account)) (c k : ClientId) :
    lookupKey (ensureAccount accs c) k =
      if k = c then some (getAccount accs c) else lookupKey accs k := by
  unfold ensureAccount
  cases h : lookupKey accs c with
  | some a =>
    by_cases hk : k = c
    · subst hk; simp [getAccount, h]
    · simp [hk]
  | none =>
    by_cases hk : k = c
    · subst hk; simp [lookupKey_cons, getAccount, h]
    · simp [lookupKey_cons, hk]

theorem lookupKey_modify (accs : List (ClientId × Account)) (c k : ClientId)
    (f : Account → Account) :
    lookupKey (modifyAccount accs c f) k =
      if k = c then (lookupKey accs k).map f else lookupKey accs k := by
  induction accs with
  | nil => simp [modifyAccount, lookupKey]
  | cons p rest ih =>
    obtain ⟨k', v⟩ := p
    by_cases h1 : k' = c
    · subst h1
      by_cases h2 : k = k'
      · subst h2; simp [modifyAccount, lookupKey_cons]
      · simp only [modifyAccount, List.map_cons] at ih ⊢
        simp [lookupKey_cons, h2, ih]
    · by_cases h2 : k = k'
      · subst h2
        simp [modifyAccount, lookupKey_cons, h1]
      · simp [modifyAccount, lookupKey_cons, h1, h2] at ih ⊢
        exact ih

theorem getAccount_ensure (accs : List (ClientId × Account)) (c k : ClientId) :
    getAccount (ensureAccount accs c) k = getAccount accs k := by
  by_cases hk : k = c
  · subst hk; simp [getAccount, lookupKey_ensure]
  · simp [getAccount, lookupKey_ensure, hk]

theorem getAccount_modify_ensure_self (accs : List (ClientId × Account))
    (c : ClientId) (f : Account → Account) :
    getAccount (modifyAccount (ensureAccount accs c) c f) c =
      f (getAccount accs c) := by
  simp [getAccount, lookupKey_modify, lookupKey_ensure]

theorem getAccount_modify_ensure_other (accs : List (ClientId × Account))
    (c k : ClientId) (f : Account → Account) (h : k ≠ c) :
    getAccount (modifyAccount (ensureAccount accs c) c f) k =
      getAccount accs k := by
  simp [getAccount, lookupKey_modify, lookupKey_ensure, h]

theorem mem_disputedInsert_self (d : List TxId) (tx : TxId) :
    tx ∈ disputedInsert d tx := by
  unfold disputedInsert
  by_cases h : tx ∈ d <;> simp [h]

theorem disputedInsert_of_mem (d : List TxId) (tx : TxId) (h : tx ∈ d) :
    disputedInsert d tx = d := by
  simp [disputedInsert, h]

theorem stepOk_of_no_missing (s : EngineState) (r : Record)
    (h : missingAmount r = none) : ∃ s', step s r = Except.ok s' := by
  cases r with
  | Deposit c tx amt =>
    cases amt with
    | none => simp [missingAmount] at h
    | some q => exact ⟨_, rfl⟩
  | Withdraw c tx amt =>
    cases amt with
    | none => simp [missingAmount] at h
    | some q =>
      simp only [step]
      split
      · exact ⟨_, rfl⟩
      · exact ⟨_, rfl⟩
  | Dispute c tx amt =>
    simp only [step]
    split
    · exact ⟨_, rfl⟩
    · exact ⟨_, rfl⟩
  | Resolve c tx amt =>
    simp only [step]
    split
    · exact ⟨_, rfl⟩
    · exact ⟨_, rfl⟩
  | Chargeback c tx amt =>
    simp only [step]
    split
    · split
      · exact ⟨_, rfl⟩
      · exact ⟨_, rfl⟩
    · exact ⟨_, rfl⟩

theorem processRecords_append (l1 l2 : List Record) (s : EngineState) :
    processRecords (l1 ++ l2) s =
      Except.bind (processRecords l1 s) fun s' => processRecords l2 s' := by
  induction l1 generalizing s with
  | nil => simp [processRecords, Except.bind]
  | cons r rest ih =>
    simp only [List.cons_append, processRecords]
    cases hstep : step s r with
    | error e => simp [Except.bind]
    | ok s' => simp [Except.bind, ih]

theorem processRecords_ok_of_no_missing (l : List Record)
    (h : ∀ r ∈ l, missingAmount r = none) (s : EngineState) :
    ∃ s', processRecords l s = Except.ok s' := by
  induction l generalizing s with
  | nil => exact ⟨s, rfl⟩
  | cons r rest ih =>
    obtain ⟨s1, hs1⟩ := stepOk_of_no_missing s r (h r (by simp))
    obtain ⟨s2, hs2⟩ := ih (fun r' hr' => h r' (by simp [hr'])) s1
    refine ⟨s2, ?_⟩
    simp only [processRecords]
    rw [hs1]
    exact hs2

theorem lookupKey_txnsRecord_of_some (txns : List (TxId × ℚ)) (tx t : TxId)
    (q a : ℚ) (h : lookupKey txns t = some a) :
    lookupKey (txnsRecord txns tx q) t = some a := by
  unfold txnsRecord
  cases hl : lookupKey txns tx with
  | some _ => exact h
  | none =>
    rw [lookupKey_cons]
    by_cases ht : t = tx
    · subst ht; rw [h] at hl; cases hl
    · simp [ht, h]

/-- C4: a deposit or withdrawal whose amount is absent aborts the whole
batch with the typed error naming the offending TxId; no accounts mapping
is returned and no record after it is processed. -/
theorem C4_missing_amount_is_fatal (pre post : List Record) (c : ClientId)
    (tx : TxId) (h : ∀ r ∈ pre, missingAmount r = none) :
    process (pre ++ Record.Deposit c tx none :: post) =
      Except.error (Error.DepositNoAmount tx) ∧
    process (pre ++ Record.Withdraw c tx none :: post) =
      Except.error (Error.WithdrawNoAmount tx) := by
  obtain ⟨s1, hs1⟩ := processRecords_ok_of_no_missing pre h EngineState.init
  constructor <;>
  · unfold process
    rw [processRecords_append, hs1]
    simp [Except.bind, processRecords, step, Except.map]

theorem C4_missing_amount_is_fatal_witness :
    process ([Record.Deposit 1 1 (some 10)] ++
        Record.Deposit 2 2 none :: [Record.Deposit 3 3 (some 5)]) =
      Except.error (Error.DepositNoAmount 2) ∧
    process ([Record.Deposit 1 1 (some 10)] ++
        Record.Withdraw 2 2 none :: [Record.Deposit 3 3 (some 5)]) =
      Except.error (Error.WithdrawNoAmount 2) :=
  C4_missing_amount_is_fatal [Record.Deposit 1 1 (some 10)]
    [Record.Deposit 3 3 (some 5)] 2 2
    (by intro r hr; simp at hr; subst hr; rfl)

/-- C5: a withdrawal with a present amount is silently skipped when the
client's available funds are below the amount (available, held and the
history are unchanged); otherwise available decreases by the amount, held
is unchanged and the amount is recorded in the history only when the TxId
is not yet present; existing history entries are never overwritten. -/
theorem C5_withdraw_behavior (s : EngineState) (c : ClientId) (tx : TxId)
    (q : ℚ) :
    ∃ s', step s (Record.Withdraw c tx (some q)) = Except.ok s' ∧
      s'.disputed = s.disputed ∧
      ((getAccount s.accounts c).amounts.available < q →
        s'.txns = s.txns ∧
        ∀ k, getAccount s'.accounts k = getAccount s.accounts k) ∧
      (q ≤ (getAccount s.accounts c).amounts.available →
        s'.txns = txnsRecord s.txns tx q ∧
        (getAccount s'.accounts c).amounts.available =
          (getAccount s.accounts c).amounts.available - q ∧
        (getAccount s'.accounts c).amounts.held =
          (getAccount s.accounts c).amounts.held) ∧
      ∀ t a, lookupKey s.txns t = some a → lookupKey s'.txns t = some a := by
  by_cases hq : q ≤ (getAccount s.accounts c).amounts.available
  · have hcond : ((getAccount (ensureAccount s.accounts c) c).amounts.withdraw q).2
        = true := by
      rw [getAccount_ensure]; simp [Amounts.withdraw, hq]
    simp only [step, hcond, if_true]
    refine ⟨_, rfl, rfl, ?_, ?_, ?_⟩
    · intro hlt; exact absurd hq (not_le.mpr hlt)
    · intro _
      refine ⟨rfl, ?_, ?_⟩ <;>
        simp [getAccount_modify_ensure_self, Amounts.withdraw, hq]
    · intro t a ha
      exact lookupKey_txnsRecord_of_some _ _ _ _ _ ha
  · have hcond : ((getAccount (ensureAccount s.accounts c) c).amounts.withdraw q).2
        = false := by
      rw [getAccount_ensure]; simp [Amounts.withdraw, hq]
    simp only [step, hcond, Bool.false_eq_true, if_false]
    refine ⟨_, rfl, rfl, ?_, ?_, ?_⟩
    · intro _; exact ⟨rfl, fun k => getAccount_ensure s.accounts c k⟩
    · intro hle; exact absurd hle hq
    · intro t a ha; exact ha

theorem C5_withdraw_behavior_witness :
    ∃ s', step EngineState.init (Record.Withdraw 2 1 (some 50)) = Except.ok s' ∧
      s'.txns = EngineState.init.txns ∧
      getAccount s'.accounts 2 = getAccount EngineState.init.accounts 2 := by
  obtain ⟨s', hstep, -, hfail, -, -⟩ :=
    C5_withdraw_behavior EngineState.init 2 1 50
  obtain ⟨htx, hacc⟩ := hfail (by norm_num [getAccount, lookupKey, EngineState.init,
    Account.new])
  exact ⟨s', hstep, htx, hacc 2⟩

/-- C6: a dispute whose TxId is in the history moves the recorded amount
from available to held on the account of the record's client and marks the
TxId disputed; a dispute on an unknown TxId changes no balances and no
indices, except that a zero-balance account is still created for the
record's client when absent. -/
theorem C6_dispute_behavior (s : EngineState) (c : ClientId) (tx : TxId)
    (amt : Option ℚ) :
    ∃ s', step s (Record.Dispute c tx amt) = Except.ok s' ∧
      (∀ a, lookupKey s.txns tx = some a →
        (getAccount s'.accounts c).amounts.available =
          (getAccount s.accounts c).amounts.available - a ∧
        (getAccount s'.accounts c).amounts.held =
          (getAccount s.accounts c).amounts.held + a ∧
        tx ∈ s'.disputed) ∧
      (lookupKey s.txns tx = none →
        s'.txns = s.txns ∧ s'.disputed = s.disputed ∧
        (∀ k, getAccount s'.accounts k = getAccount s.accounts k) ∧
        (lookupKey s.accounts c = none →
          lookupKey s'.accounts c = some (Account.new c))) := by
  cases hl : lookupKey s.txns tx with
  | some a0 =>
    simp only [step, hl]
    refine ⟨_, rfl, ?_, ?_⟩
    · intro a ha
      injection ha with ha
      subst ha
      refine ⟨?_, ?_, mem_disputedInsert_self _ _⟩ <;>
        simp [getAccount_modify_ensure_self, Amounts.hold]
    · intro hnone; cases hnone
  | none =>
    simp only [step, hl]
    refine ⟨_, rfl, ?_, ?_⟩
    · intro a ha; cases ha
    · intro _
      refine ⟨rfl, rfl, fun k => getAccount_ensure s.accounts c k, ?_⟩
      intro hca
      simp [lookupKey_ensure, getAccount, hca]

theorem C6_dispute_behavior_witness :
    ∃ s', step EngineState.init (Record.Dispute 3 999 none) = Except.ok s' ∧
      s'.txns = EngineState.init.txns ∧ s'.disputed = EngineState.init.disputed ∧
      lookupKey s'.accounts 3 = some (Account.new 3) := by
  obtain ⟨s', hstep, -, hnone⟩ := C6_dispute_behavior EngineState.init 3 999 none
  obtain ⟨htx, hd, -, hacc⟩ := hnone rfl
  exact ⟨s', hstep, htx, hd, hacc rfl⟩

/-- A chargeback that successfully completes at state `s`: the record is a
chargeback for client `c` whose TxId is in the history and currently
disputed — the exact guard of the `Record::Chargeback` branch. -/
def chargebackApplies (s : EngineState) (r : Record) (c : ClientId) : Prop :=
  ∃ tx amt, r = Record.Chargeback c tx amt ∧
    (lookupKey s.txns tx).isSome = true ∧ tx ∈ s.disputed

theorem locked_modify_ensure (accs : List (ClientId × Account)) (c' k : ClientId)
    (f : Account → Account) (hf : ∀ a, (f a).locked = a.locked) :
    (getAccount (modifyAccount (ensureAccount accs c') c' f) k).locked =
      (getAccount accs k).locked := by
  by_cases hk : k = c'
  · subst hk; rw [getAccount_modify_ensure_self, hf]
  · rw [getAccount_modify_ensure_other _ _ _ _ hk]

theorem locked_iff_helper {after before : Bool} {P : Prop}
    (heq : after = before) (hP : ¬P) : after = true ↔ before = true ∨ P := by
  subst heq
  constructor
  · exact Or.inl
  · rintro (hh | hp)
    · exact hh
    · exact absurd hp hP

theorem step_locked_eq (s : EngineState) (r : Record) (s' : EngineState)
    (h : step s r = Except.ok s') (c : ClientId) :
    (getAccount s'.accounts c).locked = true ↔
      (getAccount s.accounts c).locked = true ∨ chargebackApplies s r c := by
  cases r with
  | Deposit c' tx amt =>
    cases amt with
    | none => simp [step] at h
    | some q =>
      simp only [step] at h
      injection h with h
      subst h
      dsimp only
      exact locked_iff_helper (locked_modify_ensure _ _ _ _ fun a => rfl)
        (by rintro ⟨tx', amt', heq, -, -⟩; cases heq)
  | Withdraw c' tx amt =>
    cases amt with
    | none => simp [step] at h
    | some q =>
      simp only [step] at h
      split at h <;>
      · injection h with h
        subst h
        dsimp only
        first
        | exact locked_iff_helper (locked_modify_ensure _ _ _ _ fun a => rfl)
            (by rintro ⟨tx', amt', heq, -, -⟩; cases heq)
        | exact locked_iff_helper (congrArg Account.locked (getAccount_ensure _ _ _))
            (by rintro ⟨tx', amt', heq, -, -⟩; cases heq)
  | Dispute c' tx amt =>
    simp only [step] at h
    split at h <;>
    · injection h with h
      subst h
      dsimp only
      first
      | exact locked_iff_helper (locked_modify_ensure _ _ _ _ fun a => rfl)
          (by rintro ⟨tx', amt', heq, -, -⟩; cases heq)
      | exact locked_iff_helper (congrArg Account.locked (getAccount_ensure _ _ _))
          (by rintro ⟨tx', amt', heq, -, -⟩; cases heq)
  | Resolve c' tx amt =>
    simp only [step] at h
    split at h <;>
    · injection h with h
      subst h
      dsimp only
      first
      | exact locked_iff_helper (locked_modify_ensure _ _ _ _ fun a => rfl)
          (by rintro ⟨tx', amt', heq, -, -⟩; cases heq)
      | exact locked_iff_helper (congrArg Account.locked (getAccount_ensure _ _ _))
          (by rintro ⟨tx', amt', heq, -, -⟩; cases heq)
  | Chargeback c' tx amt =>
    simp only [step] at h
    split at h
    · rename_i amount hsome
      split at h
      · rename_i hmem
        injection h with h
        subst h
        dsimp only
        by_cases hc : c = c'
        · subst hc
          constructor
          · intro _
            exact Or.inr ⟨tx, amt, rfl, by rw [hsome]; rfl, hmem⟩
          · intro _
            rw [getAccount_modify_ensure_self]
        · exact locked_iff_helper
            (congrArg Account.locked (getAccount_modify_ensure_other _ _ _ _ hc))
            (by rintro ⟨tx', amt', heq, -, -⟩
                injection heq with h1 _ _
                exact hc h1.symm)
      · rename_i hnmem
        injection h with h
        subst h
        dsimp only
        exact locked_iff_helper (congrArg Account.locked (getAccount_ensure _ _ _))
          (by rintro ⟨tx', amt', heq, -, hmem'⟩
              injection heq with _ h2 _
              exact hnmem (h2 ▸ hmem'))
    · rename_i hnone
      injection h with h
      subst h
      dsimp only
      exact locked_iff_helper (congrArg Account.locked (getAccount_ensure _ _ _))
        (by rintro ⟨tx', amt', heq, hsome', -⟩
            injection heq with _ h2 _
            rw [← h2, hnone] at hsome'
            cases hsome')

theorem processRecords_locked_mono (rs : List Record) (s t : EngineState)
    (h : processRecords rs s = Except.ok t) (c : ClientId)
    (hl : (getAccount s.accounts c).locked = true) :
    (getAccount t.accounts c).locked = true := by
  induction rs generalizing s with
  | nil =>
    injection h with h
    subst h
    exact hl
  | cons r rest ih =>
    simp only [processRecords] at h
    cases hstep : step s r with
    | error e => rw [hstep] at h; cases h
    | ok s1 =>
      rw [hstep] at h
      exact ih s1 h ((step_locked_eq s r s1 hstep c).mpr (Or.inl hl))

/-- C7: the locked flag becomes true exactly when a chargeback completes
successfully (TxId in the history and disputed), never resets during the
rest of the fold, and a locked account still accepts deposits
(Scenario C). -/
theorem C7_locked_monotone_and_exact (s : EngineState) (r : Record)
    (s' : EngineState) (h : step s r = Except.ok s') (c : ClientId) :
    ((getAccount s'.accounts c).locked = true ↔
      (getAccount s.accounts c).locked = true ∨ chargebackApplies s r c) ∧
    (∀ rs t, processRecords rs s' = Except.ok t →
      (getAccount s'.accounts c).locked = true →
      (getAccount t.accounts c).locked = true) ∧
    process [Record.Deposit 1 1 (some 10), Record.Dispute 1 1 none,
        Record.Chargeback 1 1 none] =
      Except.ok [(1, Account.mk 1 (Amounts.mk (0) (0)) true)] ∧
    process [Record.Deposit 1 1 (some 10), Record.Dispute 1 1 none,
        Record.Chargeback 1 1 none, Record.Deposit 1 2 (some 5)] =
      Except.ok [(1, Account.mk 1 (Amounts.mk (5) (0)) true)] :=
  ⟨step_locked_eq s r s' h c,
   fun rs t ht hl => processRecords_locked_mono rs s' t ht c hl,
   by norm_num [process, processRecords, step, ensureAccount, modifyAccount,
     getAccount, lookupKey, txnsRecord, disputedInsert, disputedRemove, List.filter,
     Amounts.deposit, Amounts.withdraw, Amounts.hold, Amounts.release,
     Amounts.chargeback, Account.new, EngineState.init, Except.map],
   by norm_num [process, processRecords, step, ensureAccount, modifyAccount,
     getAccount, lookupKey, txnsRecord, disputedInsert, disputedRemove, List.filter,
     Amounts.deposit, Amounts.withdraw, Amounts.hold, Amounts.release,
     Amounts.chargeback, Account.new, EngineState.init, Except.map]⟩

theorem C7_locked_monotone_and_exact_witness :
    process [Record.Deposit 1 1 (some 10), Record.Dispute 1 1 none,
        Record.Chargeback 1 1 none, Record.Deposit 1 2 (some 5)] =
      Except.ok [(1, Account.mk 1 (Amounts.mk (5) (0)) true)] :=
  (C7_locked_monotone_and_exact EngineState.init (Record.Deposit 1 1 (some 5))
    (EngineState.mk [(1, Account.mk 1 (Amounts.mk 5 0) false)] [(1, 5)] [])
    (by norm_num [step, ensureAccount, modifyAccount, getAccount, lookupKey,
      txnsRecord, Amounts.deposit, Account.new, EngineState.init]) 1).2.2.2

/-- C8: for every reachable state of the fold and every client, the total
equals available plus held; total is computed at serialization time from
those two fields and never stored on its own. -/
theorem C8_total_is_derived (rs : List Record) (s : EngineState)
    (_h : processRecords rs EngineState.init = Except.ok s) (c : ClientId) :
    (getAccount s.accounts c).amounts.total =
      (getAccount s.accounts c).amounts.available +
        (getAccount s.accounts c).amounts.held ∧
    (serializeAccount (getAccount s.accounts c)).total =
      (serializeAccount (getAccount s.accounts c)).available +
        (serializeAccount (getAccount s.accounts c)).held :=
  ⟨rfl, rfl⟩

theorem C8_total_is_derived_witness :
    (getAccount [(1, Account.mk 1 (Amounts.mk (2) (0)) false)] 1).amounts.total =
      (getAccount [(1, Account.mk 1 (Amounts.mk (2) (0)) false)] 1).amounts.available +
        (getAccount [(1, Account.mk 1 (Amounts.mk (2) (0)) false)] 1).amounts.held ∧
    (serializeAccount (getAccount [(1, Account.mk 1 (Amounts.mk 2 0) false)]
        1)).total =
      (serializeAccount (getAccount [(1, Account.mk 1 (Amounts.mk 2 0) false)]
          1)).available +
        (serializeAccount (getAccount [(1, Account.mk 1 (Amounts.mk 2 0) false)]
            1)).held :=
  C8_total_is_derived [Record.Deposit 1 1 (some 2)]
    (EngineState.mk [(1, Account.mk 1 (Amounts.mk 2 0) false)] [(1, 2)] [])
    (by norm_num [processRecords, step, ensureAccount, modifyAccount, lookupKey,
      txnsRecord, Amounts.deposit, Account.new, EngineState.init]) 1

/-- C9: the history is keyed by TxId alone, so a dispute, resolve or
chargeback whose TxId is in the history applies the recorded amount to the
account of the client named in that record — even when the original
transaction was made by a different client, as the concrete two-client run
shows; no check relates the two clients. -/
theorem C9_lifecycle_uses_records_client (s : EngineState) (c : ClientId)
    (tx : TxId) (amt : Option ℚ) (a : ℚ) (h : lookupKey s.txns tx = some a) :
    (∃ s', step s (Record.Dispute c tx amt) = Except.ok s' ∧
      (getAccount s'.accounts c).amounts.held =
        (getAccount s.accounts c).amounts.held + a) ∧
    (∃ s', step s (Record.Resolve c tx amt) = Except.ok s' ∧
      (getAccount s'.accounts c).amounts.held =
        (getAccount s.accounts c).amounts.held - a) ∧
    (tx ∈ s.disputed →
      ∃ s', step s (Record.Chargeback c tx amt) = Except.ok s' ∧
        (getAccount s'.accounts c).amounts.held =
          (getAccount s.accounts c).amounts.held - a ∧
        (getAccount s'.accounts c).locked = true) ∧
    process [Record.Deposit 1 1 (some 10), Record.Dispute 2 1 none] =
      Except.ok [(2, Account.mk 2 (Amounts.mk (-10) (10)) false),
        (1, Account.mk 1 (Amounts.mk (10) (0)) false)] := by
  refine ⟨?_, ?_, ?_, ?_⟩
  · simp only [step, h]
    exact ⟨_, rfl, by simp [getAccount_modify_ensure_self, Amounts.hold]⟩
  · simp only [step, h]
    exact ⟨_, rfl, by simp [getAccount_modify_ensure_self, Amounts.release]⟩
  · intro hmem
    simp only [step, h]
    rw [if_pos hmem]
    exact ⟨_, rfl, by simp [getAccount_modify_ensure_self, Amounts.chargeback],
      by simp [getAccount_modify_ensure_self]⟩
  · norm_num [process, processRecords, step, ensureAccount, modifyAccount,
      getAccount, lookupKey, txnsRecord, disputedInsert, Amounts.deposit,
      Amounts.hold, Account.new, EngineState.init, Except.map]

theorem C9_lifecycle_uses_records_client_witness :
    process [Record.Deposit 1 1 (some 10), Record.Dispute 2 1 none] =
      Except.ok [(2, Account.mk 2 (Amounts.mk (-10) (10)) false),
        (1, Account.mk 1 (Amounts.mk (10) (0)) false)] :=
  (C9_lifecycle_uses_records_client
    { accounts := [], txns := [(7, 3)], disputed := [] } 5 7 none 3 rfl).2.2.2

/-- C10: a second dispute on a TxId already in the disputed set re-applies
the hold — available decreases and held increases by the recorded amount
again; only the disputed-set insertion is idempotent. -/
theorem C10_second_dispute_reapplies_hold (s : EngineState) (c : ClientId)
    (tx : TxId) (amt : Option ℚ) (a : ℚ)
    (h1 : lookupKey s.txns tx = some a) (h2 : tx ∈ s.disputed) :
    ∃ s', step s (Record.Dispute c tx amt) = Except.ok s' ∧
      (getAccount s'.accounts c).amounts.available =
        (getAccount s.accounts c).amounts.available - a ∧
      (getAccount s'.accounts c).amounts.held =
        (getAccount s.accounts c).amounts.held + a ∧
      s'.disputed = s.disputed := by
  simp only [step, h1]
  exact ⟨_, rfl, by simp [getAccount_modify_ensure_self, Amounts.hold],
    by simp [getAccount_modify_ensure_self, Amounts.hold],
    by simp [disputedInsert_of_mem _ _ h2]⟩

theorem C10_second_dispute_reapplies_hold_witness :
    ∃ s', step (EngineState.mk [(1, Account.mk 1 (Amounts.mk 0 10) false)]
        [(1, 10)] [1]) (Record.Dispute 1 1 none) =
      Except.ok s' ∧
      (getAccount s'.accounts 1).amounts.available = -10 ∧
      (getAccount s'.accounts 1).amounts.held = 20 ∧
      s'.disputed = [1] := by
  obtain ⟨s', hstep, hav, hheld, hd⟩ := C10_second_dispute_reapplies_hold
    (EngineState.mk [(1, Account.mk 1 (Amounts.mk 0 10) false)] [(1, 10)] [1])
    1 1 none 10 rfl (by simp)
  refine ⟨s', hstep, ?_, ?_, hd⟩
  · rw [hav]; norm_num [getAccount, lookupKey]
  · rw [hheld]; norm_num [getAccount, lookupKey]

/-- C1 (refuted): the `Record::Resolve` branch checks only the history,
not the disputed set — resolving a transaction that was deposited but
never disputed still moves its amount from held to available, instead of
being ignored as the claim requires. -/
theorem C1_resolve_ignores_disputed_set :
    process [Record.Deposit 1 7 (some 5)] =
      Except.ok [(1, Account.mk 1 (Amounts.mk (5) (0)) false)] ∧
    process [Record.Deposit 1 7 (some 5), Record.Resolve 1 7 none] =
      Except.ok [(1, Account.mk 1 (Amounts.mk (10) (-5)) false)] ∧
    ({ available := 10, held := -5 } : Amounts) ≠ { available := 5, held := 0 } := by
  refine ⟨?_, ?_, ?_⟩ <;>
    norm_num [process, processRecords, step, ensureAccount, modifyAccount,
      getAccount, lookupKey, txnsRecord, disputedRemove, List.filter,
      Amounts.deposit, Amounts.release, Account.new, EngineState.init, Except.map,
      Amounts.mk.injEq]

/-- C2 (refuted): held is claimed never to be negative, but an unguarded
resolve of an undisputed transaction drives held below zero. -/
theorem C2_held_goes_negative :
    process [Record.Deposit 1 1 (some 10), Record.Resolve 1 1 none] =
      Except.ok [(1, Account.mk 1 (Amounts.mk (20) (-10)) false)] ∧
    (getAccount [(1, Account.mk 1 (Amounts.mk (20) (-10)) false)] 1).amounts.held < 0 := by
  constructor
  · norm_num [process, processRecords, step, ensureAccount, modifyAccount,
      getAccount, lookupKey, txnsRecord, disputedRemove, List.filter,
      Amounts.deposit, Amounts.release, Account.new, EngineState.init, Except.map]
  · norm_num [getAccount, lookupKey]

/-- C3 (refuted for Resolve): after a dispute is resolved, a second
resolve of the same TxId is not a no-op — the history still contains the
TxId, so the release is applied a second time, changing the balances. -/
theorem C3_second_resolve_not_noop :
    process [Record.Deposit 1 1 (some 10), Record.Dispute 1 1 none,
        Record.Resolve 1 1 none] =
      Except.ok [(1, Account.mk 1 (Amounts.mk (10) (0)) false)] ∧
    process [Record.Deposit 1 1 (some 10), Record.Dispute 1 1 none,
        Record.Resolve 1 1 none, Record.Resolve 1 1 none] =
      Except.ok [(1, Account.mk 1 (Amounts.mk (20) (-10)) false)] ∧
    ({ available := 20, held := -10 } : Amounts) ≠ { available := 10, held := 0 } := by
  refine ⟨?_, ?_, ?_⟩ <;>
    norm_num [process, processRecords, step, ensureAccount, modifyAccount,
      getAccount, lookupKey, txnsRecord, disputedInsert, disputedRemove, List.filter,
      Amounts.deposit, Amounts.hold, Amounts.release, Account.new, EngineState.init,
      Except.map, Amounts.mk.injEq]

end TxEngine
